import Mathlib

/-!
Verification of the voice-input pipeline of `src/jarvis/input/voice_handler.py`.

The development shallowly embeds the pure content of the module:

* `AudioBuffer` (lines 54-106): the circular audio buffer, with `write` and
  `read_last`.  Samples are modelled as integers (the code stores `float32`
  samples; no claim depends on the sample arithmetic, only on which samples
  appear where, so an arbitrary value type with a zero suffices).  Durations
  are rationals standing for the code's float seconds; Python's
  `int(duration * sample_rate)` is `(Int.floor (d * sr)).toNat` for the
  non-negative durations the claims quantify over.
* the hand-off queue (`queue.Queue()` created at line 498 and pushed from the
  capture callback at lines 548-549), modelled with Python's `Queue.full`
  semantics: `full()` is true iff `0 < maxsize ≤ qsize()`.
* `listen_for_wake_word` (lines 566-592) and `record_speech` (lines 594-645),
  modelled as functions over an explicit trace of loop iterations.  Each
  iteration of the source loops makes one attempt to pull a chunk from the
  queue (`frame = none` models a `queue.Empty` timeout) at a time stamp
  `now`; the several `time.time()` calls of one iteration are collapsed to
  that single stamp.  The time domain is any linearly ordered type with
  subtraction, since the loops only subtract and compare times; concrete
  scenarios instantiate it with integer milliseconds (an exact rescaling of
  the code's float seconds for the sample rates involved).  Each trace entry
  also records the value the externally settable stop flag
  (`self.stop_event`) would show at that iteration; `record_speech` never
  consults it, exactly as in the source.
* `SpeechToText.transcribe` (lines 322-382) and the handler's
  `speech_to_text` method (lines 647-664).  The external whisper backends are
  modelled by the value they hand back: either a thrown exception or their
  payload (a list of segment texts for faster-whisper, a result text for
  whisper).
-/

namespace Jarvis

/-! ## AudioBuffer (voice_handler.py lines 54-106) -/

/-- State of `AudioBuffer`: `max_duration`, `sample_rate`, `max_samples`,
`buffer` (the backing array) and `write_pos` (lines 57-63). -/
structure AudioBuffer where
  maxDuration : ℚ
  sampleRate : Nat
  maxSamples : Nat
  buffer : List Int
  writePos : Nat
deriving DecidableEq

/-- Python's `int(duration * sample_rate)` for a non-negative duration. -/
def durToSamples (sr : Nat) (d : ℚ) : Nat := (Int.floor (d * (sr : ℚ))).toNat

/-- Constructor `AudioBuffer.__init__` (lines 57-63): `max_samples =
int(max_duration * sample_rate)`, a zero-filled backing array, cursor 0. -/
def mkAudioBuffer (max_duration : ℚ) (sample_rate : Nat) : AudioBuffer :=
  { maxDuration := max_duration
    sampleRate := sample_rate
    maxSamples := durToSamples sample_rate max_duration
    buffer := List.replicate (durToSamples sample_rate max_duration) 0
    writePos := 0 }

/-- Numpy slice assignment `l[start:start+len(d)] = d` (for
`start + len(d) ≤ len(l)`). -/
def setSlice (l : List Int) (start : Nat) (d : List Int) : List Int :=
  l.take start ++ d ++ l.drop (start + d.length)

/-- `AudioBuffer.write` (lines 65-84).  Three cases: (a) the incoming data is
at least as long as the buffer, so the buffer is replaced by the data's tail
(`data[-max_samples:]`, i.e. its last `max_samples` entries for a positive
capacity) and the cursor resets to 0; (b) the data fits without crossing the
end of the array; (c) the write wraps around the end. -/
def write (b : AudioBuffer) (data : List Int) : AudioBuffer :=
  if b.maxSamples ≤ data.length then
    { b with buffer := data.drop (data.length - b.maxSamples), writePos := 0 }
  else if b.writePos + data.length ≤ b.maxSamples then
    { b with buffer := setSlice b.buffer b.writePos data
             writePos := (b.writePos + data.length) % b.maxSamples }
  else
    { b with
      buffer :=
        setSlice (setSlice b.buffer b.writePos (data.take (b.maxSamples - b.writePos)))
          0 (data.drop (b.maxSamples - b.writePos)),
      writePos := data.length - (b.maxSamples - b.writePos) }

/-- Body of `AudioBuffer.read_last` (lines 86-106) after the duration has been
converted to a sample count: clamp to capacity, return the raw buffer when
the request covers the whole buffer, otherwise read `samples` entries
starting at `(write_pos - samples) % max_samples` (written here as the
always-non-negative `(write_pos + (max_samples - samples)) % max_samples`,
which agrees with Python's `%` on the clamped count), stitching two slices
when the window crosses the end of the array. -/
def read_last_count (b : AudioBuffer) (samples0 : Nat) : List Int :=
  let samples := min samples0 b.maxSamples
  if b.maxSamples ≤ samples then b.buffer
  else
    let start := (b.writePos + (b.maxSamples - samples)) % b.maxSamples
    if start + samples ≤ b.maxSamples then (b.buffer.drop start).take samples
    else b.buffer.drop start ++ b.buffer.take (samples - (b.maxSamples - start))

/-- `AudioBuffer.read_last` (lines 86-106): `samples = int(duration *
self.sample_rate)` followed by the clamped circular read. -/
def read_last (b : AudioBuffer) (duration : ℚ) : List Int :=
  read_last_count b (durToSamples b.sampleRate duration)

/-- Fold a sequence of `write` calls over a buffer. -/
def writeAll (b : AudioBuffer) (ws : List (List Int)) : AudioBuffer :=
  ws.foldl write b

/-- The buffer contents in chronological order (oldest first): the stored
array read circularly starting at the write cursor. -/
def chron (b : AudioBuffer) : List Int :=
  b.buffer.drop b.writePos ++ b.buffer.take b.writePos

/-- Last `n` elements of a list (all of it when `n ≥ length`). -/
def takeLastN (l : List Int) (n : Nat) : List Int := l.drop (l.length - n)

/-- Ring-buffer invariant tying a buffer state to the history of all samples
ever written to it: the array has the fixed capacity, the cursor is in
range, and reading the array circularly from the cursor yields the last
`max_samples` entries of (infinite silence ++ history), i.e. the most
recent samples in chronological order, zero-padded when the buffer has not
yet been filled. -/
def RingInv (b : AudioBuffer) (hist : List Int) : Prop :=
  b.buffer.length = b.maxSamples ∧ b.writePos < b.maxSamples ∧
    chron b = takeLastN (List.replicate b.maxSamples (0 : Int) ++ hist) b.maxSamples

/-! ## Hand-off queue (voice_handler.py lines 496-505 and 534-549) -/

/-- A Python `queue.Queue`: its `maxsize` argument and current items.  The
items are the audio chunks handed from the capture callback to consumers. -/
structure PyQueue where
  maxsize : Int
  items : List (List Int)
deriving DecidableEq

/-- Python's `Queue.full()`: true iff `0 < maxsize <= _qsize()`. -/
def PyQueue.full (q : PyQueue) : Bool :=
  decide (0 < q.maxsize ∧ q.maxsize ≤ (q.items.length : Int))

/-- The handler's queue as constructed at line 498: `queue.Queue()`, i.e.
`maxsize = 0`, empty. -/
def audio_queue : PyQueue := { maxsize := 0, items := [] }

/-- The queue interaction of the capture callback `audio_callback`
(lines 548-549): `if not self.audio_queue.full(): self.audio_queue.put(...)`.
A `put` on a queue that is not full appends and does not block. -/
def audio_callback_push (q : PyQueue) (frame : List Int) : PyQueue :=
  if q.full then q else { q with items := q.items ++ [frame] }

/-- `n` consecutive capture callbacks pushing onto the handler's queue with
no consumer draining it. -/
def pushN : Nat → PyQueue
  | 0 => audio_queue
  | n + 1 => audio_callback_push (pushN n) [0]

/-! ## Wake-word listening loop (voice_handler.py lines 566-592) -/

/-- One iteration of the `listen_for_wake_word` loop: the value the stop flag
shows when the `while not self.stop_event.is_set()` condition is evaluated,
and the chunk the queue hands back (`none` models `queue.Empty` after the
0.1 s timeout). -/
structure ListenEvent where
  stop : Bool
  frame : Option (List Int)

/-- The loop of `listen_for_wake_word` (lines 573-588): stop flag checked
first each iteration (returning `False` when set, line 588), otherwise one
chunk is pulled and handed to the detector, returning `True` on detection;
`queue.Empty` just continues.  `none` means the trace ended with the loop
still running. -/
def listenLoop (detect : List Int → Bool) : List ListenEvent → Option Bool
  | [] => none
  | e :: rest =>
    if e.stop then some false
    else
      match e.frame with
      | some ch => if detect ch then some true else listenLoop detect rest
      | none => listenLoop detect rest

/-- `listen_for_wake_word` (lines 566-592) including the initial
`if not self.wake_word_detector.initialized: return False` guard. -/
def listen_for_wake_word (initialized : Bool) (detect : List Int → Bool)
    (events : List ListenEvent) : Option Bool :=
  if initialized then listenLoop detect events else some false

/-! ## Speech recording loop (voice_handler.py lines 594-645) -/

/-- One iteration of the `record_speech` loop over a time domain `T`: the
time stamp of the iteration, the value the stop flag would show (recorded in
the trace although `record_speech` never reads it — its loop has no
`stop_event` check), and the chunk pulled from the queue (`none` models
`queue.Empty`). -/
structure RecEvent (T : Type) where
  now : T
  stop : Bool
  frame : Option (List Int)

/-- The recording loop of `record_speech` (lines 611-633): while
`now - recording_start < max_duration`, pull a chunk, append it to
`speech_chunks`, classify it with the voice-activity detector; speech clears
`silence_start`, silence sets it when unset, and once
`now - silence_start > silence_duration` (strict, line 625) the loop breaks.
The accumulated chunk list is returned. -/
def recordLoop {T : Type} [LinearOrder T] [Sub T] (vad : List Int → Bool)
    (silence_duration max_duration recording_start : T) :
    List (RecEvent T) → List (List Int) → Option T → List (List Int)
  | [], chunks, _ => chunks
  | e :: rest, chunks, silence_start =>
    if e.now - recording_start < max_duration then
      match e.frame with
      | none =>
          recordLoop vad silence_duration max_duration recording_start rest chunks silence_start
      | some ch =>
          if vad ch then
            recordLoop vad silence_duration max_duration recording_start rest
              (chunks ++ [ch]) none
          else
            match silence_start with
            | none =>
                recordLoop vad silence_duration max_duration recording_start rest
                  (chunks ++ [ch]) (some e.now)
            | some t =>
                if silence_duration < e.now - t then chunks ++ [ch]
                else
                  recordLoop vad silence_duration max_duration recording_start rest
                    (chunks ++ [ch]) (some t)
    else chunks

/-- `record_speech` (lines 594-645): the pending queue contents are drained
and discarded (lines 599-604) before any audio is accumulated — `pending`
is therefore never used — then the loop runs over the chunks arriving
afterwards and the collected chunks are concatenated
(`np.concatenate`, line 637), with `None` returned when nothing was
collected. -/
def record_speech {T : Type} [LinearOrder T] [Sub T] (vad : List Int → Bool)
    (silence_duration max_duration recording_start : T)
    (pending : List (List Int)) (events : List (RecEvent T)) : Option (List Int) :=
  let _ := pending
  let speech_chunks := recordLoop vad silence_duration max_duration recording_start events [] none
  if speech_chunks = [] then none else some speech_chunks.flatten

/-! ## Speech-to-text (voice_handler.py lines 267-382 and 647-664) -/

/-- What an external whisper backend call does: throw, or hand back its
payload. -/
inductive BackendResult (α : Type) where
  | throws
  | ok (a : α)

/-- The `SpeechToText` engine state: the configured engine name and the
`initialized` flag (lines 270-274). -/
structure SttEngine where
  engine : String
  initialized : Bool

/-- `SpeechToText._transcribe_faster_whisper` (lines 339-360): the segment
texts are stripped and joined with spaces; a non-empty result is returned
stripped, otherwise `None`; any exception yields `None`. -/
def transcribe_faster_whisper (res : BackendResult (List String)) : Option String :=
  match res with
  | .throws => none
  | .ok segs =>
    let text := String.intercalate " " (segs.map String.trim)
    if text ≠ "" ∧ text.trim ≠ "" then some text.trim else none

/-- `SpeechToText._transcribe_whisper` (lines 362-382): the result text is
stripped and returned when non-empty, otherwise `None`; any exception yields
`None`. -/
def transcribe_whisper (res : BackendResult String) : Option String :=
  match res with
  | .throws => none
  | .ok t =>
    let text := t.trim
    if text ≠ "" then some text else none

/-- `SpeechToText.transcribe` (lines 322-337): `None` when uninitialized,
dispatch on the engine name with `None` for an unavailable engine, and the
surrounding `try`/`except` returns `None` instead of propagating. -/
def SttEngine.transcribe (e : SttEngine) (fw : BackendResult (List String))
    (w : BackendResult String) : Option String :=
  if e.initialized then
    if e.engine = "faster-whisper" then transcribe_faster_whisper fw
    else if e.engine = "whisper" then transcribe_whisper w
    else none
  else none

/-- `VoiceHandler.speech_to_text` (lines 647-664): `None` when the engine is
uninitialized, `None` for utterances shorter than `sample_rate * 0.5`
samples (without touching the engine), otherwise the engine's transcription;
exceptions are caught to `None`.  The second component records whether the
engine's `transcribe` was invoked. -/
def speechToTextMethod (e : SttEngine) (sample_rate : Nat) (audio : List Int)
    (fw : BackendResult (List String)) (w : BackendResult String) :
    Option String × Bool :=
  if ¬ e.initialized then (none, false)
  else if (audio.length : ℚ) < (sample_rate : ℚ) * (1 / 2) then (none, false)
  else (e.transcribe fw w, true)

/-! ## Concrete scenario inputs -/

/-- Forget the stop flag of a recording-trace entry. -/
def clearStop {T : Type} (e : RecEvent T) : RecEvent T := { e with stop := false }

/-- Voice-activity classifier used in concrete scenarios: the chunk `[1]` is
speech, everything else is silence.  (The classifier is an external
collaborator; the loop theorems quantify over it.) -/
def vadScenario (c : List Int) : Bool := decide (c = [1])

/-- The spec's endpointing scenario: sample rate 16000, frame length 1024
(64 ms per frame), 10 speech frames followed by silence frames.  Times are
in integer milliseconds (the loops only subtract and compare times, so this
is an exact rescaling of the code's float seconds), frame `i` arriving at
`(i+1)*64` ms after recording start; 50 frames are supplied so that the
scenario shows where the loop stops on its own. -/
def scenarioEvents : List (RecEvent ℤ) :=
  (List.range 50).map fun i =>
    { now := ((i : ℤ) + 1) * 64, stop := false,
      frame := some (if i < 10 then [1] else [0]) }

/-! ## Basic lemmas about the buffer embedding -/

@[simp] lemma write_maxSamples (b : AudioBuffer) (data : List Int) :
    (write b data).maxSamples = b.maxSamples := by
  unfold write
  split
  · rfl
  · split
    · rfl
    · rfl

@[simp] lemma write_sampleRate (b : AudioBuffer) (data : List Int) :
    (write b data).sampleRate = b.sampleRate := by
  unfold write
  split
  · rfl
  · split
    · rfl
    · rfl

@[simp] lemma writeAll_maxSamples (b : AudioBuffer) (ws : List (List Int)) :
    (writeAll b ws).maxSamples = b.maxSamples := by
  induction ws generalizing b with
  | nil => rfl
  | cons w ws ih => simpa [writeAll] using ih (write b w)

@[simp] lemma writeAll_sampleRate (b : AudioBuffer) (ws : List (List Int)) :
    (writeAll b ws).sampleRate = b.sampleRate := by
  induction ws generalizing b with
  | nil => rfl
  | cons w ws ih => simpa [writeAll] using ih (write b w)

/-- Evaluation of the concrete 4-sample buffer used by witnesses and
counterexamples: `AudioBuffer(max_duration=1.0, sample_rate=4)`. -/
lemma mk14_eq : mkAudioBuffer 1 4 =
    { maxDuration := 1, sampleRate := 4, maxSamples := 4,
      buffer := List.replicate 4 0, writePos := 0 } := by
  have h4 : durToSamples 4 1 = 4 := by
    unfold durToSamples
    norm_num
    rfl
  unfold mkAudioBuffer
  rw [h4]

/-! ## C3 and C4 -/

/-- C3: for every buffer (whose capacity field matches its construction) and
every duration `d` strictly larger than the capacity duration, `read_last d`
returns the same samples as `read_last` of the capacity duration; both are
total functions (the embedding never fails), matching "never errors". -/
theorem C3_read_last_clamping (b : AudioBuffer) (d : ℚ)
    (hwf : b.maxSamples = durToSamples b.sampleRate b.maxDuration)
    (hd : b.maxDuration < d) :
    read_last b d = read_last b b.maxDuration := by
  have hle : durToSamples b.sampleRate b.maxDuration ≤ durToSamples b.sampleRate d := by
    unfold durToSamples
    exact Int.toNat_le_toNat
      (Int.floor_le_floor (mul_le_mul_of_nonneg_right hd.le (by positivity)))
  unfold read_last read_last_count
  rw [min_eq_right (hwf.le.trans hle), min_eq_right hwf.le]

/-- Witness for C3 at the concrete buffer `AudioBuffer(1.0, 4)` and `d = 2`. -/
theorem C3_read_last_clamping_witness :
    (mkAudioBuffer 1 4).maxSamples
        = durToSamples (mkAudioBuffer 1 4).sampleRate (mkAudioBuffer 1 4).maxDuration ∧
      (mkAudioBuffer 1 4).maxDuration < 2 ∧
      read_last (mkAudioBuffer 1 4) 2 = read_last (mkAudioBuffer 1 4) (mkAudioBuffer 1 4).maxDuration :=
  ⟨rfl, by rw [mk14_eq]; norm_num,
    C3_read_last_clamping (mkAudioBuffer 1 4) 2 rfl (by rw [mk14_eq]; norm_num)⟩

/-- One `write` keeps the cursor inside `[0, max_samples)`. -/
lemma writePos_write_lt (b : AudioBuffer) (data : List Int)
    (h : b.writePos < b.maxSamples) :
    (write b data).writePos < (write b data).maxSamples := by
  have hmax : 0 < b.maxSamples := Nat.lt_of_le_of_lt (Nat.zero_le _) h
  unfold write
  split
  · simpa using hmax
  · split
    · simpa using Nat.mod_lt _ hmax
    · rename_i h1 h2
      simp only [not_le] at h1 h2
      simpa using by omega

/-- C4: starting from a freshly constructed buffer (cursor 0, positive
capacity), every sequence of `write` calls — empty data, short data,
wrapping data, data at or above capacity — leaves the cursor in
`[0, max_samples)`. -/
theorem C4_write_cursor_invariant (max_duration : ℚ) (sample_rate : Nat)
    (ws : List (List Int)) (hcap : 0 < (mkAudioBuffer max_duration sample_rate).maxSamples) :
    (writeAll (mkAudioBuffer max_duration sample_rate) ws).writePos
      < (writeAll (mkAudioBuffer max_duration sample_rate) ws).maxSamples := by
  have main : ∀ (ws : List (List Int)) (b : AudioBuffer), b.writePos < b.maxSamples →
      (writeAll b ws).writePos < (writeAll b ws).maxSamples := by
    intro ws
    induction ws with
    | nil => exact fun b h => h
    | cons w ws ih => exact fun b h => by simpa [writeAll] using ih (write b w) (writePos_write_lt b w h)
  exact main ws _ (by simpa [mkAudioBuffer] using hcap)

/-- Witness for C4 at the concrete buffer `AudioBuffer(1.0, 4)` with writes
of lengths 0, 2, 3 (wrap) and 6 (above capacity). -/
theorem C4_write_cursor_invariant_witness :
    0 < (mkAudioBuffer 1 4).maxSamples ∧
      (writeAll (mkAudioBuffer 1 4) [[], [1, 2], [3, 4, 5], [1, 2, 3, 4, 5, 6]]).writePos
        < (writeAll (mkAudioBuffer 1 4) [[], [1, 2], [3, 4, 5], [1, 2, 3, 4, 5, 6]]).maxSamples :=
  ⟨by rw [mk14_eq]; norm_num,
    C4_write_cursor_invariant 1 4 [[], [1, 2], [3, 4, 5], [1, 2, 3, 4, 5, 6]]
      (by rw [mk14_eq]; norm_num)⟩

/-! ## C8: the hand-off queue -/

/-- Repeated capture callbacks on the handler's queue never fill it: its
`maxsize` stays 0 and after `n` callbacks it holds `n` frames. -/
lemma pushN_spec (n : Nat) : (pushN n).maxsize = 0 ∧ (pushN n).items.length = n := by
  induction n with
  | zero => exact ⟨rfl, rfl⟩
  | succ n ih =>
    obtain ⟨h0, hlen⟩ := ih
    have hfull : (pushN n).full = false := by simp [PyQueue.full, h0]
    refine ⟨?_, ?_⟩ <;> simp [pushN, audio_callback_push, hfull, h0, hlen]

/-- Counterexample to C8.  The claim says the hand-off channel is a bounded
FIFO (capacity worth a few hundred milliseconds of audio, i.e. a handful of
frames) whose overflow drops the incoming frame and increments a
dropped-frame counter.  In the source the queue is created as
`queue.Queue()` with the default `maxsize = 0`, which Python treats as
unbounded: after 300 consecutive capture callbacks with no consumer (about
19 seconds of audio at 64 ms per frame) the queue is still not full, the
301st push is still accepted, and no dropped-frame counter exists anywhere
in the module. -/
theorem C8_counterexample :
    (pushN 300).items.length = 300 ∧ (pushN 300).full = false ∧
      (audio_callback_push (pushN 300) [0]).items.length = 301 := by
  obtain ⟨h0, hlen⟩ := pushN_spec 300
  have hfull : (pushN 300).full = false := by simp [PyQueue.full, h0]
  exact ⟨hlen, hfull, by simp [audio_callback_push, hfull, hlen]⟩

/-- C8 amended: the hand-off channel is an unbounded FIFO (`queue.Queue()`
with `maxsize = 0`); `full()` is never true on it, so the capture callback
appends every frame (in arrival order, without blocking, since `put` on a
non-full queue does not block); no frame is ever dropped and the code keeps
no dropped-frame counter. -/
theorem C8_unbounded_queue (q : PyQueue) (frame : List Int) (h : q.maxsize = 0) :
    q.full = false ∧ audio_callback_push q frame = { q with items := q.items ++ [frame] } ∧
      audio_queue.maxsize = 0 := by
  refine ⟨?_, ?_, rfl⟩
  · simp [PyQueue.full, h]
  · simp [audio_callback_push, PyQueue.full, h]

/-- Witness for the amended C8 at a queue already holding a frame. -/
theorem C8_unbounded_queue_witness :
    (PyQueue.mk 0 [[5]]).maxsize = 0 ∧ (PyQueue.mk 0 [[5]]).full = false ∧
      audio_callback_push (PyQueue.mk 0 [[5]]) [7] = PyQueue.mk 0 [[5], [7]] :=
  ⟨rfl, (C8_unbounded_queue (PyQueue.mk 0 [[5]]) [7] rfl).1,
    (C8_unbounded_queue (PyQueue.mk 0 [[5]]) [7] rfl).2.1⟩

/-! ## C9: speech-to-text guards -/

/-- C9: the public speech-to-text operation always returns an optional text:
(1) utterances shorter than `0.5 * sample_rate` samples give `None` without
the engine being invoked; (2) an uninitialized engine gives `None`;
(3) a throwing backend gives `None` instead of propagating; (4) an engine
name that matches no available backend gives `None`. -/
theorem C9_transcription_guards :
    (∀ (e : SttEngine) (sample_rate : Nat) (audio : List Int)
        (fw : BackendResult (List String)) (w : BackendResult String),
        (audio.length : ℚ) < (sample_rate : ℚ) * (1 / 2) →
          speechToTextMethod e sample_rate audio fw w = (none, false)) ∧
    (∀ (e : SttEngine) (sample_rate : Nat) (audio : List Int)
        (fw : BackendResult (List String)) (w : BackendResult String),
        e.initialized = false →
          (speechToTextMethod e sample_rate audio fw w).1 = none) ∧
    (∀ (e : SttEngine) (sample_rate : Nat) (audio : List Int),
        (speechToTextMethod e sample_rate audio .throws .throws).1 = none) ∧
    (∀ (e : SttEngine) (sample_rate : Nat) (audio : List Int)
        (fw : BackendResult (List String)) (w : BackendResult String),
        e.engine ≠ "faster-whisper" → e.engine ≠ "whisper" →
          (speechToTextMethod e sample_rate audio fw w).1 = none) := by
  refine ⟨?_, ?_, ?_, ?_⟩
  · intro e sr audio fw w hshort
    unfold speechToTextMethod
    split <;> simp [hshort]
  · intro e sr audio fw w huninit
    simp [speechToTextMethod, huninit]
  · intro e sr audio
    unfold speechToTextMethod SttEngine.transcribe
    split_ifs <;> rfl
  · intro e sr audio fw w hfw hw
    unfold speechToTextMethod SttEngine.transcribe
    split_ifs <;> simp_all

/-- Witness for C9: a 16 kHz configuration; an empty utterance is short, an
uninitialized engine yields `None`, a throwing backend yields `None`, and
an unknown engine name yields `None`. -/
theorem C9_transcription_guards_witness :
    ((([] : List Int).length : ℚ) < ((16000 : Nat) : ℚ) * (1 / 2)) ∧
      speechToTextMethod ⟨"whisper", true⟩ 16000 [] .throws .throws = (none, false) ∧
      (speechToTextMethod ⟨"whisper", false⟩ 16000 (List.replicate 16000 0) .throws (.ok "hi")).1 = none ∧
      (speechToTextMethod ⟨"whisper", true⟩ 16000 (List.replicate 16000 0) .throws .throws).1 = none ∧
      (⟨"vosk", true⟩ : SttEngine).engine ≠ "faster-whisper" ∧
      (⟨"vosk", true⟩ : SttEngine).engine ≠ "whisper" ∧
      (speechToTextMethod ⟨"vosk", true⟩ 16000 (List.replicate 16000 0) .throws (.ok "hi")).1 = none := by
  have hshort : ((([] : List Int).length : ℚ) < ((16000 : Nat) : ℚ) * (1 / 2)) := by norm_num
  refine ⟨hshort, C9_transcription_guards.1 _ 16000 [] _ _ hshort,
    C9_transcription_guards.2.1 _ 16000 _ _ _ rfl,
    C9_transcription_guards.2.2.1 _ 16000 _,
    by decide, by decide,
    C9_transcription_guards.2.2.2 _ 16000 _ _ _ (by decide) (by decide)⟩

/-! ## C5: silence endpointing -/

/-- Counterexample to C5.  The claim says recording finishes as soon as the
silence span reaches the threshold at-or-above, so that in the
16 kHz / 1024-sample / 2.0 s scenario the 32nd consecutive silence frame
ends the recording, the segment holding 10 speech plus 32 silence frames
(42 frames).  Running the source's loop on that scenario (times in integer
milliseconds: threshold 2000, cap 10000, frame `i` at `64*(i+1)`), the span
test is strict (`now - silence_start > silence_duration`, line 625) and
both time stamps are frame arrival times, so the span at the k-th silence
frame is `(k-1)*64` ms: frame 32 has span 1984 < 2000 and recording only
ends at the 33rd silence frame, the segment holding 43 frames, not 42. -/
theorem C5_counterexample :
    recordLoop vadScenario 2000 10000 0 scenarioEvents [] none
        = List.replicate 10 [1] ++ List.replicate 33 [0] ∧
      (List.replicate 10 ([1] : List Int) ++ List.replicate 33 [0]).length ≠ 42 := by decide

/-- C5 amended: while recording, each pulled frame is appended to the
segment and classified; a speech frame clears `silence_started_at`, a
silence frame sets it if unset, and recording finishes once the silence
span STRICTLY exceeds the threshold; in the 16 kHz / 1024-sample / 2.0 s
scenario the 33rd consecutive silence frame ends the recording (even though
more frames are available — the scenario supplies 50), with all 10 speech
frames and all 33 silence frames retained in order.  The second conjunct
isolates the strictness: with threshold 2000 and silence frames at times
1000, 3000, 4000, the span at time 3000 equals the threshold exactly and
recording continues, only ending at 4000 with all three frames kept. -/
theorem C5_endpointing_amended :
    recordLoop vadScenario 2000 10000 0 scenarioEvents [] none
        = List.replicate 10 [1] ++ List.replicate 33 [0] ∧
      recordLoop vadScenario 2000 10000 0
          ([⟨1000, false, some [0]⟩, ⟨3000, false, some [0]⟩, ⟨4000, false, some [0]⟩] :
            List (RecEvent ℤ)) [] none
        = [[0], [0], [0]] := by decide

/-! ## C6: hard timeout under continuous speech -/

/-- C6: when the classifier reports speech for every pulled frame, the
recorder accepts exactly the frames of the maximal prefix of iterations
whose loop check `now - recording_start < max_duration` passes — so it
never ends earlier than the cap, stops accepting frames once the elapsed
time reaches `max_duration`, and the accumulated segment is exactly (and
hence bounded by) what arrived before the cap, even though silence never
occurs. -/
theorem C6_max_duration_timeout {T : Type} [LinearOrder T] [Sub T] (vad : List Int → Bool)
    (silence_duration max_duration recording_start : T) (events : List (RecEvent T))
    (chunks : List (List Int)) (silence_start : Option T)
    (hspeech : ∀ e ∈ events, ∀ ch, e.frame = some ch → vad ch = true) :
    recordLoop vad silence_duration max_duration recording_start events chunks silence_start
      = chunks ++ (events.takeWhile
          fun e => decide (e.now - recording_start < max_duration)).filterMap RecEvent.frame := by
  revert hspeech
  induction events generalizing chunks silence_start with
  | nil => intro _; simp [recordLoop]
  | cons e rest ih =>
    intro hspeech
    have hrest : ∀ e' ∈ rest, ∀ ch, e'.frame = some ch → vad ch = true :=
      fun e' he' => hspeech e' (List.mem_cons_of_mem _ he')
    by_cases hc : e.now - recording_start < max_duration
    · cases hf : e.frame with
      | none =>
        have hstep : recordLoop vad silence_duration max_duration recording_start (e :: rest)
            chunks silence_start
            = recordLoop vad silence_duration max_duration recording_start rest chunks
              silence_start := by
          simp [recordLoop, hc, hf]
        rw [hstep, ih chunks silence_start hrest]
        simp [List.takeWhile_cons, hc, hf]
      | some ch =>
        have hv : vad ch = true := hspeech e (List.mem_cons_self e rest) ch hf
        have hstep : recordLoop vad silence_duration max_duration recording_start (e :: rest)
            chunks silence_start
            = recordLoop vad silence_duration max_duration recording_start rest (chunks ++ [ch])
              none := by
          simp [recordLoop, hc, hf, hv]
        rw [hstep, ih (chunks ++ [ch]) none hrest]
        simp [List.takeWhile_cons, hc, hf]
    · have hstep : recordLoop vad silence_duration max_duration recording_start (e :: rest)
          chunks silence_start = chunks := by
        simp [recordLoop, hc]
      rw [hstep]
      simp [List.takeWhile_cons, hc]

/-- Witness for C6: three all-speech frames at 64, 128, 192 ms with a 128 ms
cap — the loop keeps exactly the frame arriving before the cap. -/
theorem C6_max_duration_timeout_witness :
    (∀ e ∈ ([⟨64, false, some [1]⟩, ⟨128, false, some [1]⟩, ⟨192, false, some [1]⟩] :
        List (RecEvent ℤ)), ∀ ch, e.frame = some ch → vadScenario ch = true) ∧
      recordLoop vadScenario 2000 128 0
          ([⟨64, false, some [1]⟩, ⟨128, false, some [1]⟩, ⟨192, false, some [1]⟩] :
            List (RecEvent ℤ)) [] none
        = [] ++ (([⟨64, false, some [1]⟩, ⟨128, false, some [1]⟩, ⟨192, false, some [1]⟩] :
            List (RecEvent ℤ)).takeWhile
              fun e => decide (e.now - 0 < 128)).filterMap RecEvent.frame := by
  have hsp : ∀ e ∈ ([⟨64, false, some [1]⟩, ⟨128, false, some [1]⟩, ⟨192, false, some [1]⟩] :
      List (RecEvent ℤ)), ∀ ch, e.frame = some ch → vadScenario ch = true := by
    intro e he ch hf
    fin_cases he <;> simp_all [vadScenario]
  exact ⟨hsp, C6_max_duration_timeout vadScenario 2000 128 0 _ [] none hsp⟩

/-! ## C7: cancellation -/

/-- Counterexample to C7.  The claim says both `listen_for_wake_word` and
the recording call observe the externally settable stop flag on their next
loop iteration and return a cancelled outcome within one poll interval.
`listen_for_wake_word` does check the flag (first conjunct: with the flag
set it returns `False` immediately, even with a detectable frame pending).
But the loop of `record_speech` (lines 611-633) contains no stop-flag check
at all: with the flag set from before its first iteration, it keeps pulling
and accumulating frames across three poll intervals and returns a normal
utterance. -/
theorem C7_counterexample :
    listenLoop vadScenario [⟨true, some [1]⟩] = some false ∧
      record_speech vadScenario 1000 10000 0 []
          ([⟨1000, true, some [0]⟩, ⟨2000, true, some [0]⟩, ⟨3000, true, some [0]⟩] :
            List (RecEvent ℤ))
        = some [0, 0, 0] := by decide

/-- C7 amended: only `listen_for_wake_word` observes the stop flag — when
the flag is set at a loop iteration it returns `False` (no detection)
immediately, regardless of any pending frame; `record_speech` never reads
the flag, so its behaviour is identical whatever the flag shows during its
run, and it ends only through its silence or max-duration conditions. -/
theorem C7_cancellation_amended :
    (∀ (detect : List Int → Bool) (e : ListenEvent) (rest : List ListenEvent),
        e.stop = true → listenLoop detect (e :: rest) = some false) ∧
    (∀ (T : Type) [LinearOrder T] [Sub T] (vad : List Int → Bool)
        (silence_duration max_duration recording_start : T)
        (events : List (RecEvent T)) (chunks : List (List Int)) (silence_start : Option T),
        recordLoop vad silence_duration max_duration recording_start (events.map clearStop)
            chunks silence_start
          = recordLoop vad silence_duration max_duration recording_start events chunks
              silence_start) := by
  constructor
  · intro detect e rest hstop
    simp [listenLoop, hstop]
  · intro T _ _ vad silence_duration max_duration recording_start events
    induction events with
    | nil => intro chunks ss; rfl
    | cons e rest ih =>
      intro chunks ss
      by_cases hc : e.now - recording_start < max_duration
      · cases hf : e.frame with
        | none => simp [recordLoop, clearStop, hc, hf, ih]
        | some ch =>
          by_cases hv : vad ch
          · simp [recordLoop, clearStop, hc, hf, hv, ih]
          · cases ss with
            | none => simp [recordLoop, clearStop, hc, hf, hv, ih]
            | some t =>
              by_cases hb : silence_duration < e.now - t
              · simp [recordLoop, clearStop, hc, hf, hv, hb]
              · simp [recordLoop, clearStop, hc, hf, hv, hb, ih]
      · simp [recordLoop, clearStop, hc]

/-- Witness for the amended C7: the stop flag set with a detectable frame
pending still yields an immediate `False`. -/
theorem C7_cancellation_amended_witness :
    (ListenEvent.mk true (some [1])).stop = true ∧
      listenLoop vadScenario [⟨true, some [1]⟩] = some false :=
  ⟨rfl, C7_cancellation_amended.1 vadScenario ⟨true, some [1]⟩ [] rfl⟩

/-! ## C10: pending frames are drained before recording -/

/-- The chunks accumulated by the recording loop are exactly the frames of
some prefix of its post-drain iteration trace. -/
lemma recordLoop_frames_prefix {T : Type} [LinearOrder T] [Sub T] (vad : List Int → Bool)
    (silence_duration max_duration recording_start : T) :
    ∀ (events : List (RecEvent T)) (chunks : List (List Int)) (silence_start : Option T),
      ∃ n, recordLoop vad silence_duration max_duration recording_start events chunks silence_start
        = chunks ++ (events.take n).filterMap RecEvent.frame := by
  intro events
  induction events with
  | nil => exact fun chunks ss => ⟨0, by simp [recordLoop]⟩
  | cons e rest ih =>
    intro chunks ss
    by_cases hc : e.now - recording_start < max_duration
    · cases hf : e.frame with
      | none =>
        obtain ⟨n, hn⟩ := ih chunks ss
        exact ⟨n + 1, by simp [recordLoop, hc, hf, hn, List.take_succ_cons]⟩
      | some ch =>
        by_cases hv : vad ch
        · obtain ⟨n, hn⟩ := ih (chunks ++ [ch]) none
          exact ⟨n + 1, by simp [recordLoop, hc, hf, hv, hn, List.take_succ_cons]⟩
        · cases ss with
          | none =>
            obtain ⟨n, hn⟩ := ih (chunks ++ [ch]) (some e.now)
            exact ⟨n + 1, by simp [recordLoop, hc, hf, hv, hn, List.take_succ_cons]⟩
          | some t =>
            by_cases hb : silence_duration < e.now - t
            · exact ⟨1, by simp [recordLoop, hc, hf, hv, hb, List.take_succ_cons]⟩
            · obtain ⟨n, hn⟩ := ih (chunks ++ [ch]) (some t)
              exact ⟨n + 1, by simp [recordLoop, hc, hf, hv, hb, hn, List.take_succ_cons]⟩
    · exact ⟨0, by simp [recordLoop, hc]⟩

/-- C10: `record_speech` drains and discards everything pending in the
hand-off queue before accumulating (lines 599-604), so its result does not
depend on the pending frames in any way, and the utterance it returns is
built exactly from frames of (a prefix of) the iterations that happen after
recording began — never from audio queued before the wake event. -/
theorem C10_drain_before_recording {T : Type} [LinearOrder T] [Sub T] (vad : List Int → Bool)
    (silence_duration max_duration recording_start : T)
    (pending pending' : List (List Int)) (events : List (RecEvent T)) :
    record_speech vad silence_duration max_duration recording_start pending events
        = record_speech vad silence_duration max_duration recording_start pending' events ∧
      ∃ n, recordLoop vad silence_duration max_duration recording_start events [] none
        = (events.take n).filterMap RecEvent.frame := by
  refine ⟨rfl, ?_⟩
  obtain ⟨n, hn⟩ :=
    recordLoop_frames_prefix vad silence_duration max_duration recording_start events [] none
  exact ⟨n, by simpa using hn⟩

/-! ## Ring-buffer lemmas for C1 and C2 -/

lemma length_setSlice (l d : List Int) (start : Nat) (h : start + d.length ≤ l.length) :
    (setSlice l start d).length = l.length := by
  simp [setSlice]
  omega

lemma length_takeLastN (l : List Int) (n : Nat) : (takeLastN l n).length = min n l.length := by
  unfold takeLastN
  rw [List.length_drop]
  omega

lemma takeLastN_append_small (H d : List Int) (L : Nat) (hH : L ≤ H.length)
    (hd : d.length ≤ L) :
    takeLastN (H ++ d) L = (takeLastN H L).drop d.length ++ d := by
  unfold takeLastN
  rw [List.length_append, List.drop_append_eq_append_drop, List.drop_drop]
  have h1 : H.length + d.length - L - H.length = 0 := by omega
  have h2 : H.length - L + d.length = H.length + d.length - L := by omega
  rw [h1, h2, List.drop_zero]

lemma takeLastN_append_large (H d : List Int) (L : Nat) (hd : L ≤ d.length) :
    takeLastN (H ++ d) L = d.drop (d.length - L) := by
  unfold takeLastN
  rw [List.length_append, List.drop_append_eq_append_drop]
  have h1 : H.length ≤ H.length + d.length - L := by omega
  rw [List.drop_eq_nil_of_le h1, List.nil_append]
  congr 1
  omega

lemma takeLastN_takeLastN (l : List Int) (L s : Nat) (h1 : s ≤ L) (h2 : L ≤ l.length) :
    takeLastN (takeLastN l L) s = takeLastN l s := by
  unfold takeLastN
  rw [List.drop_drop, List.length_drop]
  congr 1
  omega

/-- Case (b) of `write` at the level of the chronological view: an in-place
copy that fits before the end of the array shifts the chronological window
by the written length and appends the written data. -/
lemma chron_setSlice_fit (buf data : List Int) (L p : Nat)
    (hlen : buf.length = L) (hfit : p + data.length ≤ L) :
    (setSlice buf p data).drop ((p + data.length) % L)
        ++ (setSlice buf p data).take ((p + data.length) % L)
      = (buf.drop p ++ buf.take p).drop data.length ++ data := by
  have hxlen : (buf.take p ++ data).length = p + data.length := by
    simp [List.length_take, hlen]
    omega
  rcases Nat.lt_or_ge (p + data.length) L with hlt | hge
  · rw [Nat.mod_eq_of_lt hlt]
    unfold setSlice
    rw [List.drop_left' hxlen, List.take_left' hxlen]
    rw [List.drop_append_eq_append_drop, List.drop_drop, List.length_drop, hlen]
    have h0 : data.length - (L - p) = 0 := by omega
    rw [h0, List.drop_zero, List.append_assoc]
  · have hpd : p + data.length = L := le_antisymm hfit hge
    rw [hpd, Nat.mod_self]
    unfold setSlice
    have hnil : buf.drop (p + data.length) = [] := List.drop_eq_nil_of_le (by omega)
    rw [hnil, List.append_nil, List.drop_zero, List.take_zero, List.append_nil]
    have hfirst : (buf.drop p).length = data.length := by
      rw [List.length_drop, hlen]
      omega
    rw [List.drop_append_eq_append_drop, List.drop_eq_nil_of_le hfirst.le, hfirst,
      Nat.sub_self, List.drop_zero, List.nil_append]

/-- Case (c) of `write` at the level of the chronological view: a write that
wraps around the end of the array also shifts the chronological window by
the written length and appends the written data. -/
lemma chron_setSlice_wrap (buf data : List Int) (L p : Nat)
    (hlen : buf.length = L) (hp : p < L) (hd : data.length < L)
    (hcross : L < p + data.length) :
    (setSlice (setSlice buf p (data.take (L - p))) 0
          (data.drop (L - p))).drop (data.length - (L - p))
        ++ (setSlice (setSlice buf p (data.take (L - p))) 0
          (data.drop (L - p))).take (data.length - (L - p))
      = (buf.drop p ++ buf.take p).drop data.length ++ data := by
  have htake : (data.take (L - p)).length = L - p := by
    rw [List.length_take]
    omega
  have hX : setSlice buf p (data.take (L - p)) = buf.take p ++ data.take (L - p) := by
    unfold setSlice
    have h1 : buf.drop (p + (data.take (L - p)).length) = [] := by
      apply List.drop_eq_nil_of_le
      rw [hlen, htake]
      omega
    rw [h1, List.append_nil]
  have hdroplen : (data.drop (L - p)).length = data.length - (L - p) := by
    rw [List.length_drop]
  have hB : setSlice (setSlice buf p (data.take (L - p))) 0 (data.drop (L - p))
      = data.drop (L - p) ++ (buf.take p ++ data.take (L - p)).drop (data.length - (L - p)) := by
    rw [hX]
    unfold setSlice
    rw [List.take_zero, List.nil_append, Nat.zero_add, hdroplen]
  rw [hB, List.drop_left' hdroplen, List.take_left' hdroplen]
  have hptake : (buf.take p).length = p := by
    rw [List.length_take]
    omega
  rw [List.drop_append_eq_append_drop, hptake]
  have h0 : data.length - (L - p) - p = 0 := by omega
  rw [h0, List.drop_zero, List.append_assoc, List.take_append_drop]
  have hdropp : (buf.drop p).length = L - p := by
    rw [List.length_drop, hlen]
  rw [List.drop_append_eq_append_drop, List.drop_eq_nil_of_le (by omega : (buf.drop p).length ≤ data.length),
    hdropp, List.nil_append]

/-- One `write` extends the history by the written data while preserving the
ring-buffer invariant. -/
lemma ringInv_write (b : AudioBuffer) (hist data : List Int) (h : RingInv b hist) :
    RingInv (write b data) (hist ++ data) := by
  obtain ⟨hlen, hpos, hchron⟩ := h
  have hmax : 0 < b.maxSamples := Nat.lt_of_le_of_lt (Nat.zero_le _) hpos
  have hH : b.maxSamples ≤ (List.replicate b.maxSamples (0 : Int) ++ hist).length := by
    simp
  unfold write
  split
  · rename_i hge
    refine ⟨?_, ?_, ?_⟩
    · simp only [List.length_drop]
      omega
    · simpa using hmax
    · show (data.drop (data.length - b.maxSamples)).drop 0
          ++ (data.drop (data.length - b.maxSamples)).take 0
        = takeLastN (List.replicate b.maxSamples 0 ++ (hist ++ data)) b.maxSamples
      rw [List.drop_zero, List.take_zero, List.append_nil, ← List.append_assoc,
        takeLastN_append_large _ _ _ hge]
  · split
    · rename_i hlt hfit
      simp only [not_le] at hlt
      refine ⟨?_, ?_, ?_⟩
      · simpa using (length_setSlice b.buffer data b.writePos (by omega)).trans hlen
      · simpa using Nat.mod_lt _ hmax
      · show (setSlice b.buffer b.writePos data).drop ((b.writePos + data.length) % b.maxSamples)
            ++ (setSlice b.buffer b.writePos data).take ((b.writePos + data.length) % b.maxSamples)
          = takeLastN (List.replicate b.maxSamples 0 ++ (hist ++ data)) b.maxSamples
        rw [← List.append_assoc, takeLastN_append_small _ _ _ hH hlt.le, ← hchron]
        exact chron_setSlice_fit b.buffer data b.maxSamples b.writePos hlen hfit
    · rename_i hlt hcross
      simp only [not_le] at hlt hcross
      have htake : (data.take (b.maxSamples - b.writePos)).length
          = b.maxSamples - b.writePos := by
        rw [List.length_take]
        omega
      have hinner : (setSlice b.buffer b.writePos (data.take (b.maxSamples - b.writePos))).length
          = b.maxSamples := by
        rw [length_setSlice _ _ _ (by rw [hlen, htake]; omega), hlen]
      refine ⟨?_, ?_, ?_⟩
      · simpa using by
          rw [length_setSlice _ _ _ (by rw [hinner]; simp [List.length_drop]; omega), hinner]
      · simpa using by omega
      · show (setSlice (setSlice b.buffer b.writePos (data.take (b.maxSamples - b.writePos))) 0
              (data.drop (b.maxSamples - b.writePos))).drop
                (data.length - (b.maxSamples - b.writePos))
            ++ (setSlice (setSlice b.buffer b.writePos (data.take (b.maxSamples - b.writePos))) 0
              (data.drop (b.maxSamples - b.writePos))).take
                (data.length - (b.maxSamples - b.writePos))
          = takeLastN (List.replicate b.maxSamples 0 ++ (hist ++ data)) b.maxSamples
        rw [← List.append_assoc, takeLastN_append_small _ _ _ hH hlt.le, ← hchron]
        exact chron_setSlice_wrap b.buffer data b.maxSamples b.writePos hlen hpos hlt hcross

/-- A freshly constructed buffer with positive capacity satisfies the
invariant with an empty history. -/
lemma ringInv_mk (max_duration : ℚ) (sample_rate : Nat)
    (hcap : 0 < (mkAudioBuffer max_duration sample_rate).maxSamples) :
    RingInv (mkAudioBuffer max_duration sample_rate) [] := by
  refine ⟨by simp [mkAudioBuffer], by simpa [mkAudioBuffer] using hcap, ?_⟩
  simp [chron, mkAudioBuffer, takeLastN]

/-- Every sequence of writes preserves the ring-buffer invariant,
accumulating the written data as history. -/
lemma ringInv_writeAll (b : AudioBuffer) (hist : List Int) (h : RingInv b hist)
    (ws : List (List Int)) : RingInv (writeAll b ws) (hist ++ ws.flatten) := by
  induction ws generalizing b hist with
  | nil => simpa [writeAll] using h
  | cons w ws ih =>
    have := ih (write b w) (hist ++ w) (ringInv_write b hist w h)
    simpa [writeAll, List.flatten_cons, List.append_assoc] using this

/-- The circular reader, for a request strictly below capacity, returns the
last `s` samples of the chronological view. -/
lemma read_last_count_eq_takeLastN (b : AudioBuffer) (s : Nat)
    (hlen : b.buffer.length = b.maxSamples) (hp : b.writePos < b.maxSamples)
    (hs : s < b.maxSamples) :
    read_last_count b s = takeLastN (chron b) s := by
  have hchronlen : (chron b).length = b.maxSamples := by
    unfold chron
    rw [List.length_append, List.length_drop, List.length_take, hlen]
    omega
  simp only [read_last_count]
  rw [min_eq_left hs.le, if_neg (by omega : ¬ b.maxSamples ≤ s)]
  rcases le_or_lt s b.writePos with hsp | hps
  · have hstart : (b.writePos + (b.maxSamples - s)) % b.maxSamples = b.writePos - s := by
      have h1 : b.writePos + (b.maxSamples - s) = b.writePos - s + b.maxSamples := by omega
      rw [h1, Nat.add_mod_right, Nat.mod_eq_of_lt (by omega)]
    rw [hstart, if_pos (by omega : b.writePos - s + s ≤ b.maxSamples)]
    have hrhs : takeLastN (chron b) s = (b.buffer.take b.writePos).drop (b.writePos - s) := by
      unfold takeLastN
      rw [hchronlen]
      unfold chron
      rw [List.drop_append_eq_append_drop,
        List.drop_eq_nil_of_le (by rw [List.length_drop, hlen]; omega), List.nil_append,
        List.length_drop, hlen]
      congr 1
      omega
    rw [hrhs, List.drop_take]
    congr 1
    omega
  · rcases Nat.eq_zero_or_pos b.writePos with hp0 | hppos
    · have hstart : (b.writePos + (b.maxSamples - s)) % b.maxSamples = b.maxSamples - s := by
        rw [hp0, Nat.zero_add, Nat.mod_eq_of_lt (by omega)]
      rw [hstart, if_pos (by omega : b.maxSamples - s + s ≤ b.maxSamples)]
      have hrhs : takeLastN (chron b) s = b.buffer.drop (b.maxSamples - s) := by
        unfold takeLastN
        rw [hchronlen]
        unfold chron
        rw [hp0, List.drop_zero, List.take_zero, List.append_nil]
      rw [hrhs]
      exact List.take_of_length_le (by rw [List.length_drop, hlen]; omega)
    · have hstart : (b.writePos + (b.maxSamples - s)) % b.maxSamples
          = b.writePos + (b.maxSamples - s) := Nat.mod_eq_of_lt (by omega)
      rw [hstart, if_neg (by omega : ¬ (b.writePos + (b.maxSamples - s) + s ≤ b.maxSamples))]
      have harg : s - (b.maxSamples - (b.writePos + (b.maxSamples - s))) = b.writePos := by
        omega
      rw [harg]
      have hrhs : takeLastN (chron b) s
          = b.buffer.drop (b.writePos + (b.maxSamples - s)) ++ b.buffer.take b.writePos := by
        unfold takeLastN
        rw [hchronlen]
        unfold chron
        rw [List.drop_append_eq_append_drop, List.drop_drop, List.length_drop, hlen]
        have h0 : b.maxSamples - s - (b.maxSamples - b.writePos) = 0 := by omega
        rw [h0, List.drop_zero]
      rw [hrhs]

/-! ## C1: read_last -/

/-- Counterexample to C1.  The claim says `read_last(d)` always returns the
most recently written samples in chronological order (oldest first).  But
for a request that covers the whole buffer the code returns the raw backing
array (`return self.buffer.copy()`, line 93) without rotating it to start
at the write cursor: on a 4-sample buffer (`AudioBuffer(1.0, 4)`) after
writing `[1,2]` and then `[3,4,5]` (which wraps), the array is `[5,2,3,4]`
with the cursor at 1, and `read_last(1.0)` returns `[5,2,3,4]`, while the
most recent 4 samples in chronological order are `[2,3,4,5]`. -/
theorem C1_counterexample :
    read_last (writeAll (mkAudioBuffer 1 4) [[1, 2], [3, 4, 5]]) 1 = [5, 2, 3, 4] ∧
      takeLastN (List.replicate 4 (0 : Int) ++ [[1, 2], [3, 4, 5]].flatten) 4 = [2, 3, 4, 5] ∧
      ([5, 2, 3, 4] : List Int) ≠ [2, 3, 4, 5] := by
  have h4 : durToSamples 4 1 = 4 := by
    unfold durToSamples
    norm_num
    rfl
  have h4' : durToSamples (writeAll (mkAudioBuffer 1 4) [[1, 2], [3, 4, 5]]).sampleRate 1 = 4 := by
    rw [writeAll_sampleRate]
    simpa [mkAudioBuffer] using h4
  refine ⟨?_, by decide, by decide⟩
  rw [read_last, h4', mk14_eq]
  decide

/-- C1 amended: for every reachable buffer state (positive capacity) and
non-negative duration `d`, `read_last d` returns exactly
`min(int(d*sample_rate), max_samples)` samples and never fails (the
embedding is total), and whenever the requested window is STRICTLY smaller
than the capacity the result is the most recently written samples in
chronological order, with any never-written portion reading as zero-valued
silence; a request at or above capacity instead returns the backing array
in internal storage order, a rotation of the chronological window
(see `C1_counterexample`). -/
theorem C1_read_last_amended (max_duration : ℚ) (sample_rate : Nat) (ws : List (List Int))
    (d : ℚ) (hcap : 0 < (mkAudioBuffer max_duration sample_rate).maxSamples) (hd : 0 ≤ d) :
    (read_last (writeAll (mkAudioBuffer max_duration sample_rate) ws) d).length
        = min (durToSamples sample_rate d) (mkAudioBuffer max_duration sample_rate).maxSamples ∧
      (durToSamples sample_rate d < (mkAudioBuffer max_duration sample_rate).maxSamples →
        read_last (writeAll (mkAudioBuffer max_duration sample_rate) ws) d
          = takeLastN (List.replicate (mkAudioBuffer max_duration sample_rate).maxSamples 0
              ++ ws.flatten) (durToSamples sample_rate d)) := by
  obtain ⟨hlen, hpos, hchron⟩ :=
    ringInv_writeAll (mkAudioBuffer max_duration sample_rate) [] (ringInv_mk _ _ hcap) ws
  simp only [List.nil_append] at hchron
  have hms : (writeAll (mkAudioBuffer max_duration sample_rate) ws).maxSamples
      = (mkAudioBuffer max_duration sample_rate).maxSamples := writeAll_maxSamples _ _
  have hsr : (writeAll (mkAudioBuffer max_duration sample_rate) ws).sampleRate
      = sample_rate := by
    rw [writeAll_sampleRate]
    rfl
  have hrl : read_last (writeAll (mkAudioBuffer max_duration sample_rate) ws) d
      = read_last_count (writeAll (mkAudioBuffer max_duration sample_rate) ws)
          (durToSamples sample_rate d) := by
    rw [read_last, hsr]
  have hHlen : (List.replicate (writeAll (mkAudioBuffer max_duration sample_rate) ws).maxSamples
      (0 : Int) ++ ws.flatten).length
      = (writeAll (mkAudioBuffer max_duration sample_rate) ws).maxSamples
        + ws.flatten.length := by
    simp
  have hchronlen : (chron (writeAll (mkAudioBuffer max_duration sample_rate) ws)).length
      = (writeAll (mkAudioBuffer max_duration sample_rate) ws).maxSamples := by
    rw [hchron, length_takeLastN, hHlen]
    omega
  rcases lt_or_ge (durToSamples sample_rate d)
      (mkAudioBuffer max_duration sample_rate).maxSamples with hlt | hge
  · have heq := read_last_count_eq_takeLastN
      (writeAll (mkAudioBuffer max_duration sample_rate) ws)
      (durToSamples sample_rate d) hlen hpos (by omega)
    constructor
    · rw [hrl, heq, length_takeLastN, hchronlen, hms]
    · intro _
      rw [hrl, heq, hchron,
        takeLastN_takeLastN _ _ _ (by omega) (by rw [hHlen]; omega), hms]
  · constructor
    · rw [hrl]
      simp only [read_last_count]
      rw [min_eq_right (by omega), if_pos (le_refl _), hlen, hms, min_eq_right (by omega)]
    · intro hcontra
      omega

/-- Witness for the amended C1: the 4-sample buffer after one write of
`[7]`, read over half a second (2 samples < capacity). -/
theorem C1_read_last_amended_witness :
    (0 < (mkAudioBuffer 1 4).maxSamples) ∧ (0 ≤ (1 / 2 : ℚ)) ∧
      ((read_last (writeAll (mkAudioBuffer 1 4) [[7]]) (1 / 2)).length
          = min (durToSamples 4 (1 / 2)) (mkAudioBuffer 1 4).maxSamples ∧
        (durToSamples 4 (1 / 2) < (mkAudioBuffer 1 4).maxSamples →
          read_last (writeAll (mkAudioBuffer 1 4) [[7]]) (1 / 2)
            = takeLastN (List.replicate (mkAudioBuffer 1 4).maxSamples 0
                ++ ([[7]] : List (List Int)).flatten) (durToSamples 4 (1 / 2)))) :=
  ⟨by rw [mk14_eq]; norm_num, by norm_num,
    C1_read_last_amended 1 4 [[7]] (1 / 2) (by rw [mk14_eq]; norm_num) (by norm_num)⟩

/-! ## C2: total writes within capacity -/

/-- Writes that cumulatively fit inside the capacity land sequentially at
the front of the backing array, leaving the zero tail untouched and the
cursor at the total length (mod capacity). -/
lemma writeAll_sequential (L : Nat) (hL : 0 < L) :
    ∀ (ws : List (List Int)) (b : AudioBuffer) (done : List Int),
      b.maxSamples = L →
      b.buffer = done ++ List.replicate (L - done.length) 0 →
      b.writePos = done.length % L →
      done.length + ws.flatten.length ≤ L →
      (writeAll b ws).buffer
          = (done ++ ws.flatten) ++ List.replicate (L - done.length - ws.flatten.length) 0
        ∧ (writeAll b ws).writePos = (done.length + ws.flatten.length) % L := by
  intro ws
  induction ws with
  | nil =>
    intro b done h1 h2 h3 _
    exact ⟨by simpa [writeAll] using h2, by simpa [writeAll] using h3⟩
  | cons w ws ih =>
    intro b done h1 h2 h3 h4
    simp only [List.flatten_cons, List.length_append] at h4
    have hstep : (write b w).maxSamples = L ∧
        (write b w).buffer = (done ++ w) ++ List.replicate (L - (done.length + w.length)) 0 ∧
        (write b w).writePos = (done.length + w.length) % L := by
      rcases Nat.lt_or_ge w.length L with hwL | hwL
      · rcases Nat.lt_or_ge done.length L with hdL | hdL
        · have hposeq : b.writePos = done.length := by rw [h3, Nat.mod_eq_of_lt hdL]
          have hcond2 : b.writePos + w.length ≤ b.maxSamples := by rw [hposeq, h1]; omega
          unfold write
          rw [if_neg (by rw [h1]; omega), if_pos hcond2]
          refine ⟨by simpa using h1, ?_, by simp [hposeq, h1]⟩
          simp only []
          rw [h2, hposeq]
          unfold setSlice
          rw [List.take_left' rfl, List.drop_append_eq_append_drop,
            List.drop_eq_nil_of_le (by omega), List.nil_append, List.drop_replicate]
          have e1 : done.length + w.length - done.length = w.length := by omega
          have e2 : L - done.length - w.length = L - (done.length + w.length) := by omega
          rw [e1, e2]
        · have hdeq : done.length = L := le_antisymm (by omega) hdL
          have hw0 : w.length = 0 := by omega
          have hwnil : w = [] := List.length_eq_zero.mp hw0
          have hposeq : b.writePos = 0 := by rw [h3, hdeq, Nat.mod_self]
          unfold write
          rw [if_neg (by rw [h1]; omega), if_pos (by rw [hposeq, hw0, h1]; omega)]
          refine ⟨by simpa using h1, ?_, ?_⟩
          · simp only []
            rw [hwnil, hposeq]
            unfold setSlice
            simp [h2, hdeq]
          · simp [hposeq, hw0, hdeq, h1, Nat.mod_self]
      · have hd0 : done.length = 0 := by omega
        have hwL' : w.length = L := by omega
        have hdnil : done = [] := List.length_eq_zero.mp hd0
        unfold write
        rw [if_pos (by rw [h1]; omega)]
        refine ⟨by simpa using h1, ?_, ?_⟩
        · simp only []
          have e1 : w.length - b.maxSamples = 0 := by rw [h1]; omega
          rw [e1, List.drop_zero, hdnil]
          simp [hwL']
        · simp [hd0, hwL', Nat.mod_self]
    obtain ⟨hb1, hb2, hb3⟩ := hstep
    have happ := ih (write b w) (done ++ w) hb1
      (by rw [hb2, List.length_append]) (by rw [hb3, List.length_append])
      (by rw [List.length_append]; omega)
    obtain ⟨hA, hB⟩ := happ
    simp only [List.length_append] at hA hB
    have hwAll : writeAll b (w :: ws) = writeAll (write b w) ws := by
      simp [writeAll]
    constructor
    · rw [hwAll, hA]
      have e3 : L - (done.length + w.length) - ws.flatten.length
          = L - done.length - (w.length + ws.flatten.length) := by omega
      rw [e3]
      simp only [List.flatten_cons, List.length_append, List.append_assoc]
    · rw [hwAll, hB]
      congr 1
      simp only [List.length_append, List.flatten_cons]
      omega

/-- Counterexample to C2.  The claim says that after writes totalling at
most the capacity, `read_last` over the full buffer duration returns
exactly the concatenation of the written samples.  But a full read returns
the entire backing array, whose length is the capacity: on the 4-sample
buffer `AudioBuffer(1.0, 4)`, after writing `[1,2]`, `read_last(1.0)`
returns the 4 samples `[1,2,0,0]` — the written data plus the untouched
zero tail — not the 2-sample concatenation `[1,2]`. -/
theorem C2_counterexample :
    read_last (writeAll (mkAudioBuffer 1 4) [[1, 2]]) 1 = [1, 2, 0, 0] ∧
      ([1, 2, 0, 0] : List Int) ≠ [1, 2] := by
  have h4 : durToSamples 4 1 = 4 := by
    unfold durToSamples
    norm_num
    rfl
  have h4' : durToSamples (writeAll (mkAudioBuffer 1 4) [[1, 2]]).sampleRate 1 = 4 := by
    rw [writeAll_sampleRate]
    simpa [mkAudioBuffer] using h4
  refine ⟨?_, by decide⟩
  rw [read_last, h4', mk14_eq]
  decide

/-- C2 amended: for every sequence of writes to a freshly constructed
buffer (positive capacity) whose total sample count is at most the
capacity, `read_last` over the full buffer duration returns the
concatenation of all written samples in write order, followed by the
untouched zero tail padding the result to exactly the capacity (so the
result IS exactly the concatenation precisely when the writes fill the
buffer completely). -/
theorem C2_total_write_amended (max_duration : ℚ) (sample_rate : Nat) (ws : List (List Int))
    (hcap : 0 < (mkAudioBuffer max_duration sample_rate).maxSamples)
    (hfits : ws.flatten.length ≤ (mkAudioBuffer max_duration sample_rate).maxSamples) :
    read_last (writeAll (mkAudioBuffer max_duration sample_rate) ws) max_duration
      = ws.flatten ++ List.replicate
          ((mkAudioBuffer max_duration sample_rate).maxSamples - ws.flatten.length) 0 := by
  obtain ⟨hbuf, hposf⟩ := writeAll_sequential (mkAudioBuffer max_duration sample_rate).maxSamples
    hcap ws (mkAudioBuffer max_duration sample_rate) [] rfl
    (by simp only [List.nil_append, List.length_nil, Nat.sub_zero]; rfl)
    (by simp only [List.length_nil]; exact (Nat.zero_mod _).symm)
    (by simpa using hfits)
  have hms : (writeAll (mkAudioBuffer max_duration sample_rate) ws).maxSamples
      = (mkAudioBuffer max_duration sample_rate).maxSamples := writeAll_maxSamples _ _
  have hsr : (writeAll (mkAudioBuffer max_duration sample_rate) ws).sampleRate
      = sample_rate := by
    rw [writeAll_sampleRate]
    rfl
  rw [read_last, hsr]
  have hdur : durToSamples sample_rate max_duration
      = (mkAudioBuffer max_duration sample_rate).maxSamples := rfl
  rw [hdur]
  simp only [read_last_count]
  rw [hms, min_self, if_pos (le_refl _), hbuf]
  simp

/-- Witness for the amended C2: the 4-sample buffer after writes `[1,2]`
then `[3]` (total 3 ≤ 4). -/
theorem C2_total_write_amended_witness :
    (0 < (mkAudioBuffer 1 4).maxSamples) ∧
      (([[1, 2], [3]] : List (List Int)).flatten.length ≤ (mkAudioBuffer 1 4).maxSamples) ∧
      read_last (writeAll (mkAudioBuffer 1 4) [[1, 2], [3]]) 1
        = ([[1, 2], [3]] : List (List Int)).flatten ++ List.replicate
            ((mkAudioBuffer 1 4).maxSamples - ([[1, 2], [3]] : List (List Int)).flatten.length) 0 :=
  ⟨by rw [mk14_eq]; norm_num, by rw [mk14_eq]; decide,
    C2_total_write_amended 1 4 [[1, 2], [3]] (by rw [mk14_eq]; norm_num)
      (by rw [mk14_eq]; decide)⟩

/-- Witness for C10: a queue still holding a pre-wake chunk `[9]` gives the
same recording as an already-empty queue. -/
theorem C10_drain_before_recording_witness :
    record_speech vadScenario 1000 10000 0 [[9]] ([⟨100, false, some [1]⟩] : List (RecEvent ℤ))
        = record_speech vadScenario 1000 10000 0 [] ([⟨100, false, some [1]⟩] : List (RecEvent ℤ)) ∧
      ∃ n, recordLoop vadScenario 1000 10000 0
          ([⟨100, false, some [1]⟩] : List (RecEvent ℤ)) [] none
        = (([⟨100, false, some [1]⟩] : List (RecEvent ℤ)).take n).filterMap RecEvent.frame :=
  C10_drain_before_recording vadScenario 1000 10000 0 [[9]] []
    ([⟨100, false, some [1]⟩] : List (RecEvent ℤ))

end Jarvis
